import Mathlib

/-!
# Verification of the client-side secrets-vault crypto engine

A shallow embedding of the repository's cryptographic core
(`src/lib/crypto/utils.ts`, `src/lib/crypto/encryption.ts`,
`src/lib/crypto/keyExchange.ts`, `src/lib/vault/vaultService.ts`).

Modelling conventions:
* JS byte buffers (`Uint8Array` / `ArrayBuffer`) are `List Nat` with entries
  below 256; JS strings are `List Nat` of Unicode code points.
* WebCrypto key handles (`CryptoKey`) are `Nat`: the number coding the key's
  raw material.  Raw export (`subtle.exportKey`) is base-256 serialisation.
* The platform primitives (AES-GCM, PBKDF2, SHA-256, ECDH, `btoa`/`atob`,
  `TextEncoder`/`TextDecoder`, `crypto.getRandomValues`) have no source in the
  repository; they are modelled as explicit executable functions that keep the
  algebraic behaviour the code relies on (authenticated round-trip, key/iv
  binding, determinism, commutativity of ECDH).
* `crypto.getRandomValues` draws from an explicit random-source state `Rng`
  that is threaded through every function that consumes entropy.
-/

/-- State of the platform random source (`crypto.getRandomValues`):
an arbitrary byte stream together with the position of the next draw. -/
structure Rng where
  stream : Nat → Nat
  pos : Nat

/-- From `utils.ts`: `generateRandomBytes(length)` — returns `length` fresh
bytes from the platform random source and the advanced source state. -/
def generateRandomBytes (length : Nat) (r : Rng) : List Nat × Rng :=
  ((List.range length).map (fun i => r.stream (r.pos + i) % 256),
   ⟨r.stream, r.pos + length⟩)

theorem generateRandomBytes_length (n : Nat) (r : Rng) :
    (generateRandomBytes n r).1.length = n := by
  simp [generateRandomBytes]

theorem generateRandomBytes_lt (n : Nat) (r : Rng) :
    ∀ b ∈ (generateRandomBytes n r).1, b < 256 := by
  intro b hb
  simp only [generateRandomBytes, List.mem_map] at hb
  obtain ⟨i, -, rfl⟩ := hb
  exact Nat.mod_lt _ (by norm_num)

/-! ### Self-delimiting varint encoding

Used by the ideal-cipher model and the vault-payload serialiser. -/

/-- Digit loop of `encodeVarint`, structurally recursive on a fuel bound
so that the kernel can evaluate it (`n` itself always suffices as fuel). -/
def encodeVarintGo : Nat → Nat → List Nat
  | 0, n => [n % 128]
  | fuel + 1, n =>
    if n < 128 then [n] else (n % 128 + 128) :: encodeVarintGo fuel (n / 128)

/-- Little-endian base-128 varint encoding of a natural number. -/
def encodeVarint (n : Nat) : List Nat := encodeVarintGo n n

theorem encodeVarintGo_congr :
    ∀ fuel1 fuel2 n, n ≤ fuel1 → n ≤ fuel2 →
      encodeVarintGo fuel1 n = encodeVarintGo fuel2 n := by
  intro fuel1
  induction fuel1 with
  | zero =>
    intro fuel2 n h1 h2
    have hn : n = 0 := by omega
    subst hn
    cases fuel2 with
    | zero => rfl
    | succ f2 => simp [encodeVarintGo]
  | succ f1 ih =>
    intro fuel2 n h1 h2
    cases fuel2 with
    | zero =>
      have hn : n = 0 := by omega
      subst hn
      simp [encodeVarintGo]
    | succ f2 =>
      simp only [encodeVarintGo]
      by_cases h : n < 128
      · simp [h]
      · have hlt : n / 128 < n := Nat.div_lt_self (by omega) (by omega)
        simp only [h, if_false]
        rw [ih f2 (n / 128) (by omega) (by omega)]

/-- One-step unfolding of `encodeVarint`, matching its recursive spec. -/
theorem encodeVarint_eq (n : Nat) :
    encodeVarint n =
      if n < 128 then [n] else (n % 128 + 128) :: encodeVarint (n / 128) := by
  cases n with
  | zero => simp [encodeVarint, encodeVarintGo]
  | succ m =>
    show encodeVarintGo (m + 1) (m + 1) = _
    simp only [encodeVarintGo]
    by_cases h : m + 1 < 128
    · simp [h]
    · have hlt : (m + 1) / 128 < m + 1 := Nat.div_lt_self (by omega) (by omega)
      simp only [h, if_false]
      rw [encodeVarintGo_congr m ((m + 1) / 128) ((m + 1) / 128)
        (by omega) (by omega)]
      rfl

/-- Decoder for `encodeVarint`; returns the value and the unread rest. -/
def decodeVarint : List Nat → Option (Nat × List Nat)
  | [] => none
  | b :: rest =>
    if b < 128 then some (b, rest)
    else
      match decodeVarint rest with
      | some (m, rest2) => some (b - 128 + 128 * m, rest2)
      | none => none

theorem decodeVarint_encode (n : Nat) (l : List Nat) :
    decodeVarint (encodeVarint n ++ l) = some (n, l) := by
  induction n using Nat.strong_induction_on with
  | _ n ih =>
    rw [encodeVarint_eq]
    by_cases h : n < 128
    · simp [h, decodeVarint]
    · have hd : n / 128 < n := Nat.div_lt_self (by omega) (by omega)
      simp only [h, if_false, List.cons_append, decodeVarint]
      have h2 : ¬ (n % 128 + 128 < 128) := by omega
      simp only [h2, if_false, ih (n / 128) hd]
      have := Nat.mod_add_div n 128
      exact congrArg (fun k => some (k, l)) (by omega)

theorem encodeVarint_lt (n : Nat) : ∀ b ∈ encodeVarint n, b < 256 := by
  induction n using Nat.strong_induction_on with
  | _ n ih =>
    intro b hb
    rw [encodeVarint_eq] at hb
    by_cases h : n < 128
    · simp [h] at hb; omega
    · have hd : n / 128 < n := Nat.div_lt_self (by omega) (by omega)
      simp only [h, if_false, List.mem_cons] at hb
      rcases hb with rfl | hb
      · have := Nat.mod_lt n (show 0 < 128 by norm_num); omega
      · exact ih (n / 128) hd b hb

/-! ### Base-256 serialisation of key material

Models `subtle.exportKey('raw' | 'spki', k)` / `subtle.importKey` on the
`Nat`-coded key handles. -/

/-- Digit loop of `natToBytes`, structurally recursive on a fuel bound so
that the kernel can evaluate it (`n` itself always suffices as fuel). -/
def natToBytesGo : Nat → Nat → List Nat
  | 0, n => [n % 256]
  | fuel + 1, n =>
    if n < 256 then [n] else (n % 256) :: natToBytesGo fuel (n / 256)

/-- Little-endian base-256 digits of a natural number (raw key bytes). -/
def natToBytes (n : Nat) : List Nat := natToBytesGo n n

theorem natToBytesGo_congr :
    ∀ fuel1 fuel2 n, n ≤ fuel1 → n ≤ fuel2 →
      natToBytesGo fuel1 n = natToBytesGo fuel2 n := by
  intro fuel1
  induction fuel1 with
  | zero =>
    intro fuel2 n h1 h2
    have hn : n = 0 := by omega
    subst hn
    cases fuel2 with
    | zero => rfl
    | succ f2 => simp [natToBytesGo]
  | succ f1 ih =>
    intro fuel2 n h1 h2
    cases fuel2 with
    | zero =>
      have hn : n = 0 := by omega
      subst hn
      simp [natToBytesGo]
    | succ f2 =>
      simp only [natToBytesGo]
      by_cases h : n < 256
      · simp [h]
      · have hlt : n / 256 < n := Nat.div_lt_self (by omega) (by omega)
        simp only [h, if_false]
        rw [ih f2 (n / 256) (by omega) (by omega)]

/-- One-step unfolding of `natToBytes`, matching its recursive spec. -/
theorem natToBytes_eq (n : Nat) :
    natToBytes n =
      if n < 256 then [n] else (n % 256) :: natToBytes (n / 256) := by
  cases n with
  | zero => simp [natToBytes, natToBytesGo]
  | succ m =>
    show natToBytesGo (m + 1) (m + 1) = _
    simp only [natToBytesGo]
    by_cases h : m + 1 < 256
    · simp [h]
    · have hlt : (m + 1) / 256 < m + 1 := Nat.div_lt_self (by omega) (by omega)
      simp only [h, if_false]
      rw [natToBytesGo_congr m ((m + 1) / 256) ((m + 1) / 256)
        (by omega) (by omega)]
      rfl

/-- Rebuild a natural number from little-endian base-256 digits. -/
def bytesToNat : List Nat → Nat
  | [] => 0
  | b :: rest => b + 256 * bytesToNat rest

theorem bytesToNat_natToBytes (n : Nat) : bytesToNat (natToBytes n) = n := by
  induction n using Nat.strong_induction_on with
  | _ n ih =>
    rw [natToBytes_eq]
    by_cases h : n < 256
    · simp [h, bytesToNat]
    · have hd : n / 256 < n := Nat.div_lt_self (by omega) (by omega)
      simp only [h, if_false, bytesToNat, ih (n / 256) hd]
      omega

theorem natToBytes_lt (n : Nat) : ∀ b ∈ natToBytes n, b < 256 := by
  induction n using Nat.strong_induction_on with
  | _ n ih =>
    intro b hb
    rw [natToBytes_eq] at hb
    by_cases h : n < 256
    · simp [h] at hb; omega
    · have hd : n / 256 < n := Nat.div_lt_self (by omega) (by omega)
      simp only [h, if_false, List.mem_cons] at hb
      rcases hb with rfl | hb
      · exact Nat.mod_lt n (by norm_num)
      · exact ih (n / 256) hd b hb

/-! ### UTF-8 (models the platform `TextEncoder` / `TextDecoder`)

`stringToArrayBuffer` / `arrayBufferToString` in `utils.ts` delegate to the
platform codec; strings are lists of Unicode code points. -/

/-- UTF-8 bytes of one code point (platform `TextEncoder`, per scalar). -/
def utf8EncodeChar (c : Nat) : List Nat :=
  if c < 0x80 then [c]
  else if c < 0x800 then [0xC0 + c / 0x40, 0x80 + c % 0x40]
  else if c < 0x10000 then
    [0xE0 + c / 0x1000, 0x80 + c / 0x40 % 0x40, 0x80 + c % 0x40]
  else
    [0xF0 + c / 0x40000, 0x80 + c / 0x1000 % 0x40, 0x80 + c / 0x40 % 0x40,
     0x80 + c % 0x40]

/-- From `utils.ts`: `stringToArrayBuffer(str)` — UTF-8 encode a string
(platform `TextEncoder`). -/
def stringToArrayBuffer (str : List Nat) : List Nat :=
  (str.map utf8EncodeChar).flatten

/-- Consume one UTF-8 sequence from the front of a byte list: the decoded
code point and the unread rest.  `none` on an empty or truncated input. -/
def utf8DecodeStep : List Nat → Option (Nat × List Nat)
  | [] => none
  | b :: rest =>
    if b < 0x80 then some (b, rest)
    else if b < 0xE0 then
      match rest with
      | b1 :: r => some ((b - 0xC0) * 0x40 + (b1 - 0x80), r)
      | [] => none
    else if b < 0xF0 then
      match rest with
      | b1 :: b2 :: r =>
          some ((b - 0xE0) * 0x1000 + (b1 - 0x80) * 0x40 + (b2 - 0x80), r)
      | _ => none
    else
      match rest with
      | b1 :: b2 :: b3 :: r =>
          some ((b - 0xF0) * 0x40000 + (b1 - 0x80) * 0x1000 +
            (b2 - 0x80) * 0x40 + (b3 - 0x80), r)
      | _ => none

theorem utf8DecodeStep_shorter :
    ∀ l c r, utf8DecodeStep l = some (c, r) → r.length < l.length := by
  intro l c r h
  match l with
  | [] => simp [utf8DecodeStep] at h
  | b :: rest =>
    simp only [utf8DecodeStep] at h
    split_ifs at h with h1 h2 h3
    · simp_all
    all_goals rcases rest with _ | ⟨b1, _ | ⟨b2, _ | ⟨b3, r'⟩⟩⟩
    any_goals simp_all
    any_goals omega

/-- Decode loop, structurally recursive on a fuel bound so that the kernel
can evaluate it (the input length always suffices as fuel). -/
def utf8DecodeGo : Nat → List Nat → List Nat
  | 0, _ => []
  | fuel + 1, l =>
    match utf8DecodeStep l with
    | none => []
    | some (c, r) => c :: utf8DecodeGo fuel r

/-- UTF-8 decode a whole byte list (platform `TextDecoder`; ill-formed
input yields an unspecified result). -/
def utf8Decode (l : List Nat) : List Nat := utf8DecodeGo l.length l

/-- From `utils.ts`: `arrayBufferToString(buffer)` — UTF-8 decode
(platform `TextDecoder`). -/
def arrayBufferToString (buffer : List Nat) : List Nat :=
  utf8Decode buffer

theorem utf8DecodeGo_congr :
    ∀ fuel1 fuel2 l, l.length ≤ fuel1 → l.length ≤ fuel2 →
      utf8DecodeGo fuel1 l = utf8DecodeGo fuel2 l := by
  intro fuel1
  induction fuel1 with
  | zero =>
    intro fuel2 l h1 h2
    have hl : l = [] := by
      cases l with
      | nil => rfl
      | cons x xs => simp at h1
    subst hl
    cases fuel2 with
    | zero => rfl
    | succ f2 => simp [utf8DecodeGo, utf8DecodeStep]
  | succ f1 ih =>
    intro fuel2 l h1 h2
    cases fuel2 with
    | zero =>
      have hl : l = [] := by
        cases l with
        | nil => rfl
        | cons x xs => simp at h2
      subst hl
      simp [utf8DecodeGo, utf8DecodeStep]
    | succ f2 =>
      simp only [utf8DecodeGo]
      cases hstep : utf8DecodeStep l with
      | none => rfl
      | some p =>
        obtain ⟨c, r⟩ := p
        have hlt := utf8DecodeStep_shorter l c r hstep
        show c :: utf8DecodeGo f1 r = c :: utf8DecodeGo f2 r
        rw [ih f2 r (by omega) (by omega)]

theorem utf8Decode_nil : utf8Decode [] = [] := rfl

theorem utf8Decode_some (l : List Nat) (c : Nat) (r : List Nat)
    (h : utf8DecodeStep l = some (c, r)) :
    utf8Decode l = c :: utf8Decode r := by
  have hlt := utf8DecodeStep_shorter l c r h
  cases hl : l.length with
  | zero => omega
  | succ m =>
    show utf8DecodeGo l.length l = _
    rw [hl]
    simp only [utf8DecodeGo, h]
    rw [utf8DecodeGo_congr m r.length r (by omega) (by omega)]
    rfl

theorem utf8EncodeChar_lt (c : Nat) (hc : c < 0x110000) :
    ∀ b ∈ utf8EncodeChar c, b < 256 := by
  intro b hb
  unfold utf8EncodeChar at hb
  split_ifs at hb with h1 h2 h3 <;>
    simp only [List.mem_cons, List.not_mem_nil, or_false] at hb
  · omega
  · rcases hb with rfl | rfl <;> omega
  · rcases hb with rfl | rfl | rfl <;> omega
  · rcases hb with rfl | rfl | rfl | rfl <;> omega

theorem utf8DecodeStep_encodeChar (c : Nat) (hc : c < 0x110000)
    (rest : List Nat) :
    utf8DecodeStep (utf8EncodeChar c ++ rest) = some (c, rest) := by
  unfold utf8EncodeChar
  split_ifs with h1 h2 h3
  · simp only [List.cons_append, List.nil_append, utf8DecodeStep, if_pos h1]
  · have e1 : ¬ (0xC0 + c / 0x40 < 0x80) := by omega
    have e2 : 0xC0 + c / 0x40 < 0xE0 := by omega
    simp only [List.cons_append, List.nil_append, utf8DecodeStep,
      if_neg e1, if_pos e2, Option.some.injEq, Prod.mk.injEq]
    exact ⟨by omega, trivial⟩
  · have e1 : ¬ (0xE0 + c / 0x1000 < 0x80) := by omega
    have e2 : ¬ (0xE0 + c / 0x1000 < 0xE0) := by omega
    have e3 : 0xE0 + c / 0x1000 < 0xF0 := by omega
    simp only [List.cons_append, List.nil_append, utf8DecodeStep,
      if_neg e1, if_neg e2, if_pos e3, Option.some.injEq, Prod.mk.injEq]
    exact ⟨by omega, trivial⟩
  · have e1 : ¬ (0xF0 + c / 0x40000 < 0x80) := by omega
    have e2 : ¬ (0xF0 + c / 0x40000 < 0xE0) := by omega
    have e3 : ¬ (0xF0 + c / 0x40000 < 0xF0) := by omega
    simp only [List.cons_append, List.nil_append, utf8DecodeStep,
      if_neg e1, if_neg e2, if_neg e3, Option.some.injEq, Prod.mk.injEq]
    exact ⟨by omega, trivial⟩

theorem arrayBufferToString_stringToArrayBuffer (s : List Nat)
    (hs : ∀ c ∈ s, c < 0x110000) :
    arrayBufferToString (stringToArrayBuffer s) = s := by
  induction s with
  | nil => simpa [stringToArrayBuffer, arrayBufferToString] using utf8Decode_nil
  | cons c cs ih =>
    have hc : c < 0x110000 := hs c (by simp)
    have hstep := utf8DecodeStep_encodeChar c hc
      ((List.map utf8EncodeChar cs).flatten)
    simp only [stringToArrayBuffer, arrayBufferToString, List.map_cons,
      List.flatten_cons] at *
    rw [utf8Decode_some _ _ _ hstep]
    exact congrArg (c :: ·) (ih (fun x hx => hs x (by simp [hx])))

theorem stringToArrayBuffer_lt (s : List Nat) (hs : ∀ c ∈ s, c < 0x110000) :
    ∀ b ∈ stringToArrayBuffer s, b < 256 := by
  intro b hb
  simp only [stringToArrayBuffer, List.mem_flatten, List.mem_map] at hb
  obtain ⟨l, ⟨c, hc, rfl⟩, hbl⟩ := hb
  exact utf8EncodeChar_lt c (hs c hc) b hbl

/-! ### Base64 (models the platform `btoa` / `atob`)

`arrayBufferToBase64` / `base64ToArrayBuffer` in `utils.ts` walk the buffer
through a binary string and the platform base64 codec; here the two loops and
the codec are fused into one byte-list/char-code-list codec. -/

/-- Character codes of the base64 alphabet `A-Z a-z 0-9 + /`. -/
def b64Alphabet : List Nat :=
  [65, 66, 67, 68, 69, 70, 71, 72, 73, 74, 75, 76, 77, 78, 79, 80, 81, 82,
   83, 84, 85, 86, 87, 88, 89, 90, 97, 98, 99, 100, 101, 102, 103, 104, 105,
   106, 107, 108, 109, 110, 111, 112, 113, 114, 115, 116, 117, 118, 119, 120,
   121, 122, 48, 49, 50, 51, 52, 53, 54, 55, 56, 57, 43, 47]

/-- Code of the base64 character for a 6-bit value. -/
def b64Char (n : Nat) : Nat := b64Alphabet.getD n 65

/-- 6-bit value of a base64 character code. -/
def b64Value (c : Nat) : Nat := b64Alphabet.indexOf c

/-- Standard base64 of a byte list, as character codes (`'='` is 61). -/
def base64Encode : List Nat → List Nat
  | a :: b :: c :: rest =>
    b64Char (a / 4) :: b64Char (a % 4 * 16 + b / 16) ::
      b64Char (b % 16 * 4 + c / 64) :: b64Char (c % 64) :: base64Encode rest
  | [a, b] => [b64Char (a / 4), b64Char (a % 4 * 16 + b / 16),
      b64Char (b % 16 * 4), 61]
  | [a] => [b64Char (a / 4), b64Char (a % 4 * 16), 61, 61]
  | [] => []

/-- Base64 decoding of a character-code list back to bytes. -/
def base64Decode : List Nat → List Nat
  | c0 :: c1 :: c2 :: c3 :: rest =>
    if c2 = 61 then [b64Value c0 * 4 + b64Value c1 / 16]
    else if c3 = 61 then
      [b64Value c0 * 4 + b64Value c1 / 16,
       b64Value c1 % 16 * 16 + b64Value c2 / 4]
    else
      (b64Value c0 * 4 + b64Value c1 / 16) ::
        (b64Value c1 % 16 * 16 + b64Value c2 / 4) ::
        (b64Value c2 % 4 * 64 + b64Value c3) :: base64Decode rest
  | _ => []

/-- From `utils.ts`: `arrayBufferToBase64(buffer)`. -/
def arrayBufferToBase64 (buffer : List Nat) : List Nat := base64Encode buffer

/-- From `utils.ts`: `base64ToArrayBuffer(base64)`. -/
def base64ToArrayBuffer (base64 : List Nat) : List Nat := base64Decode base64

theorem b64Value_b64Char : ∀ x, x < 64 → b64Value (b64Char x) = x := by decide

theorem b64Char_ne_61 : ∀ x, x < 64 → b64Char x ≠ 61 := by decide

theorem base64Decode_encode (l : List Nat) (hl : ∀ b ∈ l, b < 256) :
    base64Decode (base64Encode l) = l := by
  induction l using base64Encode.induct with
  | case1 a b c rest ih =>
    have ha : a < 256 := hl a (by simp)
    have hb : b < 256 := hl b (by simp)
    have hc : c < 256 := hl c (by simp)
    have h0 : a / 4 < 64 := by omega
    have h1 : a % 4 * 16 + b / 16 < 64 := by omega
    have h2 : b % 16 * 4 + c / 64 < 64 := by omega
    have h3 : c % 64 < 64 := by omega
    simp only [base64Encode, base64Decode, b64Char_ne_61 _ h2, if_false,
      b64Char_ne_61 _ h3, b64Value_b64Char _ h0, b64Value_b64Char _ h1,
      b64Value_b64Char _ h2, b64Value_b64Char _ h3]
    rw [ih (fun x hx => hl x (by simp [hx]))]
    refine List.cons_eq_cons.2 ⟨by omega, ?_⟩
    refine List.cons_eq_cons.2 ⟨by omega, ?_⟩
    exact List.cons_eq_cons.2 ⟨by omega, rfl⟩
  | case2 a b =>
    have ha : a < 256 := hl a (by simp)
    have hb : b < 256 := hl b (by simp)
    have h0 : a / 4 < 64 := by omega
    have h1 : a % 4 * 16 + b / 16 < 64 := by omega
    have h2 : b % 16 * 4 < 64 := by omega
    simp only [base64Encode, base64Decode, b64Char_ne_61 _ h2, if_false,
      if_true, b64Value_b64Char _ h0, b64Value_b64Char _ h1,
      b64Value_b64Char _ h2]
    refine List.cons_eq_cons.2 ⟨by omega, ?_⟩
    exact List.cons_eq_cons.2 ⟨by omega, rfl⟩
  | case3 a =>
    have ha : a < 256 := hl a (by simp)
    have h0 : a / 4 < 64 := by omega
    have h1 : a % 4 * 16 < 64 := by omega
    simp only [base64Encode, base64Decode, if_true, b64Value_b64Char _ h0,
      b64Value_b64Char _ h1]
    exact List.cons_eq_cons.2 ⟨by omega, rfl⟩
  | case4 => rfl

theorem base64Encode_length (l : List Nat) :
    (base64Encode l).length = 4 * ((l.length + 2) / 3) := by
  induction l using base64Encode.induct with
  | case1 a b c rest ih => simp [base64Encode, ih]; omega
  | case2 a b => simp [base64Encode]
  | case3 a => simp [base64Encode]
  | case4 => simp [base64Encode]

theorem base64ToArrayBuffer_arrayBufferToBase64 (l : List Nat)
    (hl : ∀ b ∈ l, b < 256) :
    base64ToArrayBuffer (arrayBufferToBase64 l) = l :=
  base64Decode_encode l hl

/-! ### Ideal AES-GCM (models `crypto.subtle.encrypt` / `decrypt`)

The platform cipher is modelled as an ideal authenticated cipher: the
ciphertext determines the key, the IV and the plaintext, and decryption
succeeds exactly when it is asked for the key/IV pair the ciphertext was
produced under — the behaviour an authentication tag enforces. -/

/-- Ideal `crypto.subtle.encrypt({name:'AES-GCM', iv}, key, data)`. -/
def aesGcmEncrypt (key : Nat) (iv data : List Nat) : List Nat :=
  encodeVarint key ++ encodeVarint iv.length ++ iv ++ data

/-- Ideal `crypto.subtle.decrypt({name:'AES-GCM', iv}, key, data)`:
`none` is the platform `OperationError` on tag-verification failure. -/
def aesGcmDecrypt (key : Nat) (iv data : List Nat) : Option (List Nat) :=
  match decodeVarint data with
  | none => none
  | some (k, r1) =>
    match decodeVarint r1 with
    | none => none
    | some (n, r2) =>
      if k = key ∧ n = iv.length ∧ r2.take n = iv then some (r2.drop n)
      else none

theorem aesGcmDecrypt_encrypt (key : Nat) (iv data : List Nat) :
    aesGcmDecrypt key iv (aesGcmEncrypt key iv data) = some data := by
  simp only [aesGcmEncrypt, aesGcmDecrypt, List.append_assoc,
    decodeVarint_encode]
  simp [List.take_left, List.drop_left]

theorem aesGcmDecrypt_wrong_key (key key' : Nat) (iv data : List Nat)
    (hk : key' ≠ key) :
    aesGcmDecrypt key' iv (aesGcmEncrypt key iv data) = none := by
  have hk' : ¬ (key = key') := fun h => hk h.symm
  simp only [aesGcmEncrypt, aesGcmDecrypt, List.append_assoc,
    decodeVarint_encode]
  simp [hk']

theorem aesGcmEncrypt_lt (key : Nat) (iv data : List Nat)
    (hiv : ∀ b ∈ iv, b < 256) (hdata : ∀ b ∈ data, b < 256) :
    ∀ b ∈ aesGcmEncrypt key iv data, b < 256 := by
  intro b hb
  simp only [aesGcmEncrypt, List.mem_append] at hb
  rcases hb with ((h | h) | h) | h
  · exact encodeVarint_lt key b h
  · exact encodeVarint_lt iv.length b h
  · exact hiv b h
  · exact hdata b h

/-! ### Ideal PBKDF2 and SHA-256 (models `crypto.subtle.deriveKey` /
`crypto.subtle.digest`) -/

/-- Injective code of a byte list (digits below 256 shifted into base 257,
so no list collides with a prefix or an extension of another). -/
def listToNat : List Nat → Nat
  | [] => 0
  | b :: rest => b + 1 + 257 * listToNat rest

theorem listToNat_injOn (l1 l2 : List Nat) (h1 : ∀ b ∈ l1, b < 256)
    (h2 : ∀ b ∈ l2, b < 256) (heq : listToNat l1 = listToNat l2) :
    l1 = l2 := by
  induction l1 generalizing l2 with
  | nil =>
    cases l2 with
    | nil => rfl
    | cons b r => simp only [listToNat] at heq; omega
  | cons b r ih =>
    cases l2 with
    | nil => simp only [listToNat] at heq; omega
    | cons b' r' =>
      simp only [listToNat] at heq
      have hb : b < 256 := h1 b (by simp)
      have hb' : b' < 256 := h2 b' (by simp)
      have hbb : b = b' ∧ listToNat r = listToNat r' := by
        constructor <;> omega
      rw [hbb.1, ih r' (fun x hx => h1 x (by simp [hx]))
        (fun x hx => h2 x (by simp [hx])) hbb.2]

/-- Ideal `PBKDF2` (`crypto.subtle.deriveKey` with `{name:'PBKDF2', salt,
iterations, hash:'SHA-256'}`): a deterministic key-stretching function,
injective in the (password, salt) pair — the ideal-KDF behaviour. -/
def pbkdf2Sha256 (password salt : List Nat) (iterations keyLength : Nat) :
    Nat :=
  Nat.pair (Nat.pair (listToNat password) (listToNat salt))
    (Nat.pair iterations keyLength)

theorem pbkdf2Sha256_salt_ne (password s1 s2 : List Nat)
    (it kl : Nat) (h1 : ∀ b ∈ s1, b < 256) (h2 : ∀ b ∈ s2, b < 256)
    (hne : s1 ≠ s2) :
    pbkdf2Sha256 password s1 it kl ≠ pbkdf2Sha256 password s2 it kl := by
  intro h
  simp only [pbkdf2Sha256, Nat.pair_eq_pair] at h
  exact hne (listToNat_injOn s1 s2 h1 h2 h.1.2)

/-- Ideal `crypto.subtle.digest('SHA-256', data)`: a fixed deterministic
32-byte digest of the input (collision behaviour is not modelled). -/
def sha256Digest (data : List Nat) : List Nat :=
  (List.range 32).map (fun i => (listToNat data * 31 + i * 17 + 7) % 256)

theorem sha256Digest_length (data : List Nat) :
    (sha256Digest data).length = 32 := by
  simp [sha256Digest]

/-! ### Ideal P-256 ECDH (models `crypto.subtle.deriveKey` with
`{name:'ECDH', public}` and EC key-pair generation)

The P-256 group is modelled as the multiplicative group mod a fixed prime:
a public key is `g ^ d mod p` for the private scalar `d`, and the shared
point is the peer's public key raised to the own private scalar — exactly
the commutative-exponentiation structure Diffie-Hellman relies on. -/

/-- Modulus of the model group standing in for the P-256 curve. -/
def ecPrime : Nat := 1009

/-- Generator of the model group (stands in for the P-256 base point). -/
def ecGen : Nat := 11

/-- Public key of a private scalar (stands in for `d · G` on P-256). -/
def ecPublicKey (d : Nat) : Nat := ecGen ^ d % ecPrime

/-- Shared point of an own private scalar and a peer public key. -/
def ecdhSharedPoint (d q : Nat) : Nat := q ^ d % ecPrime

theorem ecdhSharedPoint_comm (d1 d2 : Nat) :
    ecdhSharedPoint d1 (ecPublicKey d2) =
      ecdhSharedPoint d2 (ecPublicKey d1) := by
  simp only [ecdhSharedPoint, ecPublicKey]
  rw [← Nat.pow_mod, ← Nat.pow_mod, ← pow_mul, ← pow_mul, Nat.mul_comm]

/-- Decidable equality for results, so that concrete runs of the engine
can be checked by evaluation. -/
instance {ε α : Type} [DecidableEq ε] [DecidableEq α] :
    DecidableEq (Except ε α) := fun a b =>
  match a, b with
  | .error e1, .error e2 =>
    if h : e1 = e2 then .isTrue (by rw [h]) else .isFalse (by simp [h])
  | .ok v1, .ok v2 =>
    if h : v1 = v2 then .isTrue (by rw [h]) else .isFalse (by simp [h])
  | .error _, .ok _ => .isFalse (fun hc => Except.noConfusion hc)
  | .ok _, .error _ => .isFalse (fun hc => Except.noConfusion hc)

/-! ### Error taxonomy

Every failure in the source is a thrown `Error` distinguished only by its
message; each distinct message is one constructor here. -/

/-- The errors the engine can raise. -/
inductive CryptoError where
  /-- `decryptData`: `Unsupported algorithm: ...` (the tag is interpolated
  into the message, so this error is distinguishable per algorithm). -/
  | unsupportedAlgorithm (algorithm : String)
  /-- `decryptData`: `Failed to decrypt data: Invalid key or corrupted
  data` — the single generic authentication failure. -/
  | decryptionFailed
  /-- `decryptVault`: `Vault key fingerprint mismatch - possible
  tampering`. -/
  | keyFingerprintMismatch
  /-- `decryptFromSender`: `Sender public key mismatch`. -/
  | senderKeyMismatch
  /-- `findAndDecryptSharedSecret`: `No shared secret found for this
  recipient`. -/
  | noSharedSecretFound
  /-- `updateEntry`: `Entry not found`. -/
  | entryNotFound
  /-- `generateSecurePassword`: `At least one character type must be
  selected`. -/
  | invalidPolicy
  /-- Platform `JSON.parse` failure on a malformed decrypted payload. -/
  | invalidData
deriving DecidableEq

/-! ### Data model (`src/types/crypto.ts`) -/

/-- `EncryptedData` from `types/crypto.ts`: the self-describing envelope.
String fields are lists of character codes; the algorithm tag is kept as a
Lean string. -/
structure EncryptedData where
  data : List Nat
  iv : List Nat
  salt : Option (List Nat) := none
  algorithm : String
  keyDerivation : Option String := none
deriving DecidableEq

/-- `MasterKey` from `types/crypto.ts`: key handle plus base64 salt. -/
structure MasterKey where
  key : Nat
  salt : List Nat
deriving DecidableEq

/-- `KeyPair` from `types/crypto.ts`: ECDH public/private key handles. -/
structure KeyPair where
  publicKey : Nat
  privateKey : Nat
deriving DecidableEq

/-- `SharedSecret` from `types/crypto.ts`: one recipient's envelope tagged
with both parties' key fingerprints. -/
structure SharedSecret where
  encryptedData : EncryptedData
  recipientPublicKeyId : List Nat
  senderPublicKeyId : List Nat
deriving DecidableEq

instance : Inhabited SharedSecret :=
  ⟨⟨⟨[], [], none, "AES-GCM", none⟩, [], []⟩⟩

/-! ### `encryption.ts` -/

/-- From `encryption.ts`: `deriveMasterKey(password, salt?)` — PBKDF2 with
100,000 iterations over SHA-256, 256-bit key, 32-byte salt generated when
none is supplied (config values from `DEFAULT_CRYPTO_CONFIG`). -/
def deriveMasterKey (password : List Nat) (salt : Option (List Nat))
    (r : Rng) : MasterKey × Rng :=
  let passwordBuffer := stringToArrayBuffer password
  let saltPair := match salt with
    | some s => (s, r)
    | none => generateRandomBytes 32 r
  let masterKey := pbkdf2Sha256 passwordBuffer saltPair.1 100000 256
  (⟨masterKey, arrayBufferToBase64 saltPair.1⟩, saltPair.2)

/-- From `encryption.ts`: `encryptData(data, key)` — fresh random 12-byte
IV, AES-GCM, envelope fields base64 encoded. -/
def encryptData (data : List Nat) (key : Nat) (r : Rng) :
    EncryptedData × Rng :=
  let ivPair := generateRandomBytes 12 r
  let dataBuffer := stringToArrayBuffer data
  let encryptedBuffer := aesGcmEncrypt key ivPair.1 dataBuffer
  ({ data := arrayBufferToBase64 encryptedBuffer,
     iv := arrayBufferToBase64 ivPair.1,
     algorithm := "AES-GCM" }, ivPair.2)

/-- From `encryption.ts`: `decryptData(encryptedData, key)` — rejects a
non-`AES-GCM` algorithm tag up front with a distinct error, then maps every
platform decryption failure to the one generic `decryptionFailed` error. -/
def decryptData (encryptedData : EncryptedData) (key : Nat) :
    Except CryptoError (List Nat) :=
  if encryptedData.algorithm ≠ "AES-GCM" then
    .error (.unsupportedAlgorithm encryptedData.algorithm)
  else
    let dataBuffer := base64ToArrayBuffer encryptedData.data
    let iv := base64ToArrayBuffer encryptedData.iv
    match aesGcmDecrypt key iv dataBuffer with
    | some decryptedBuffer => .ok (arrayBufferToString decryptedBuffer)
    | none => .error .decryptionFailed

/-- From `encryption.ts`: `exportKey(key, masterKey)` — raw-export the key,
base64 it and encrypt that string under the master key.  The final
`JSON.stringify` of the envelope is modelled as the identity. -/
def exportKey (key masterKey : Nat) (r : Rng) : EncryptedData × Rng :=
  let keyBuffer := natToBytes key
  let keyData := arrayBufferToBase64 keyBuffer
  encryptData keyData masterKey r

/-- From `encryption.ts`: `importKey(encryptedKeyData, masterKey)` — the
inverse of `exportKey` (the leading `JSON.parse` is the identity). -/
def importKey (encryptedKeyData : EncryptedData) (masterKey : Nat) :
    Except CryptoError Nat :=
  match decryptData encryptedKeyData masterKey with
  | .error e => .error e
  | .ok keyData => .ok (bytesToNat (base64ToArrayBuffer keyData))

/-! ### `utils.ts`: password generation and key fingerprints -/

/-- `PasswordGenerationOptions` from `utils.ts`. -/
structure PasswordGenerationOptions where
  length : Nat
  includeUppercase : Bool
  includeLowercase : Bool
  includeNumbers : Bool
  includeSymbols : Bool
  excludeSimilar : Bool
deriving DecidableEq

/-- Character codes of `'ABCDEFGHIJKLMNOPQRSTUVWXYZ'`. -/
def uppercaseChars : List Nat :=
  [65, 66, 67, 68, 69, 70, 71, 72, 73, 74, 75, 76, 77, 78, 79, 80, 81, 82,
   83, 84, 85, 86, 87, 88, 89, 90]

/-- Character codes of `'ABCDEFGHJKLMNPQRSTUVWXYZ'` (no `I`, no `O`). -/
def uppercaseNoSimilar : List Nat :=
  [65, 66, 67, 68, 69, 70, 71, 72, 74, 75, 76, 77, 78, 80, 81, 82, 83, 84,
   85, 86, 87, 88, 89, 90]

/-- Character codes of `'abcdefghijklmnopqrstuvwxyz'`. -/
def lowercaseChars : List Nat :=
  [97, 98, 99, 100, 101, 102, 103, 104, 105, 106, 107, 108, 109, 110, 111,
   112, 113, 114, 115, 116, 117, 118, 119, 120, 121, 122]

/-- Character codes of `'abcdefghjkmnpqrstuvwxyz'` (no `i`, `l`, `o`). -/
def lowercaseNoSimilar : List Nat :=
  [97, 98, 99, 100, 101, 102, 103, 104, 106, 107, 109, 110, 112, 113, 114,
   115, 116, 117, 118, 119, 120, 121, 122]

/-- Character codes of `'0123456789'`. -/
def numberChars : List Nat := [48, 49, 50, 51, 52, 53, 54, 55, 56, 57]

/-- Character codes of `'23456789'` (no `0`, no `1`). -/
def numberNoSimilar : List Nat := [50, 51, 52, 53, 54, 55, 56, 57]

/-- Character codes of the symbol class (unchanged by `excludeSimilar`). -/
def symbolChars : List Nat :=
  [33, 64, 35, 36, 37, 94, 38, 42, 40, 41, 95, 43, 45, 61, 91, 93, 123,
   125, 124, 59, 58, 44, 46, 60, 62, 63]

/-- The `charset` built by `generateSecurePassword` before sampling:
enabled classes concatenated in source order, the similar-looking glyphs
dropped from a class when `excludeSimilar` is set. -/
def passwordCharset (options : PasswordGenerationOptions) : List Nat :=
  (if options.includeUppercase then
    (if options.excludeSimilar then uppercaseNoSimilar else uppercaseChars)
   else []) ++
  (if options.includeLowercase then
    (if options.excludeSimilar then lowercaseNoSimilar else lowercaseChars)
   else []) ++
  (if options.includeNumbers then
    (if options.excludeSimilar then numberNoSimilar else numberChars)
   else []) ++
  (if options.includeSymbols then symbolChars else [])

/-- From `utils.ts`: `generateSecurePassword(options)` — empty pool throws;
otherwise `options.length` bytes are drawn and each is reduced mod the pool
size to pick a character. -/
def generateSecurePassword (options : PasswordGenerationOptions) (r : Rng) :
    Except CryptoError (List Nat) × Rng :=
  let charset := passwordCharset options
  if charset = [] then (.error .invalidPolicy, r)
  else
    let bytesPair := generateRandomBytes options.length r
    (.ok (bytesPair.1.map (fun b => charset.getD (b % charset.length) 0)),
     bytesPair.2)

/-- From `utils.ts`: `generateKeyFingerprint(publicKey)` — SPKI-export the
key, SHA-256 it, base64 the digest, keep the first 16 characters. -/
def generateKeyFingerprint (publicKey : Nat) : List Nat :=
  let exported := natToBytes publicKey
  let hash := sha256Digest exported
  (arrayBufferToBase64 hash).take 16

/-! ### Round-trip lemmas for the encryption layer -/

theorem b64Char_lt (n : Nat) : b64Char n < 128 := by
  by_cases h : n < b64Alphabet.length
  · rw [b64Char, b64Alphabet.getD_eq_getElem 65 h]
    have hmem := b64Alphabet.getElem_mem h
    have hall : ∀ x ∈ b64Alphabet, x < 128 := by decide
    exact hall _ hmem
  · rw [b64Char, b64Alphabet.getD_eq_default 65 (by omega)]
    norm_num

theorem base64Encode_lt (l : List Nat) : ∀ c ∈ base64Encode l, c < 128 := by
  induction l using base64Encode.induct with
  | case1 a b c rest ih =>
    intro x hx
    simp only [base64Encode, List.mem_cons] at hx
    rcases hx with rfl | rfl | rfl | rfl | hx
    · exact b64Char_lt _
    · exact b64Char_lt _
    · exact b64Char_lt _
    · exact b64Char_lt _
    · exact ih x hx
  | case2 a b =>
    intro x hx
    simp only [base64Encode, List.mem_cons, List.not_mem_nil, or_false] at hx
    rcases hx with rfl | rfl | rfl | rfl
    · exact b64Char_lt _
    · exact b64Char_lt _
    · exact b64Char_lt _
    · norm_num
  | case3 a =>
    intro x hx
    simp only [base64Encode, List.mem_cons, List.not_mem_nil, or_false] at hx
    rcases hx with rfl | rfl | rfl | rfl
    · exact b64Char_lt _
    · exact b64Char_lt _
    · norm_num
    · norm_num
  | case4 => intro x hx; simp [base64Encode] at hx

theorem decryptData_encryptData (data : List Nat) (key : Nat) (r : Rng)
    (hd : ∀ c ∈ data, c < 0x110000) :
    decryptData (encryptData data key r).1 key = .ok data := by
  have hiv := generateRandomBytes_lt 12 r
  have hbuf := stringToArrayBuffer_lt data hd
  have hct := aesGcmEncrypt_lt key (generateRandomBytes 12 r).1
    (stringToArrayBuffer data) hiv hbuf
  simp only [encryptData, decryptData, base64ToArrayBuffer,
    arrayBufferToBase64]
  rw [if_neg (by simp)]
  rw [base64Decode_encode _ hct, base64Decode_encode _ hiv,
    aesGcmDecrypt_encrypt]
  exact congrArg Except.ok (arrayBufferToString_stringToArrayBuffer data hd)

theorem decryptData_encryptData_wrong_key (data : List Nat)
    (key key' : Nat) (r : Rng) (hk : key' ≠ key)
    (hd : ∀ c ∈ data, c < 0x110000) :
    decryptData (encryptData data key r).1 key' = .error .decryptionFailed := by
  have hiv := generateRandomBytes_lt 12 r
  have hbuf := stringToArrayBuffer_lt data hd
  have hct := aesGcmEncrypt_lt key (generateRandomBytes 12 r).1
    (stringToArrayBuffer data) hiv hbuf
  simp only [encryptData, decryptData, base64ToArrayBuffer,
    arrayBufferToBase64]
  rw [if_neg (by simp)]
  rw [base64Decode_encode _ hct, base64Decode_encode _ hiv,
    aesGcmDecrypt_wrong_key key key' _ _ hk]

theorem importKey_exportKey (key masterKey : Nat) (r : Rng) :
    importKey (exportKey key masterKey r).1 masterKey = .ok key := by
  have hchars : ∀ c ∈ arrayBufferToBase64 (natToBytes key), c < 0x110000 :=
    fun c hc => lt_trans (base64Encode_lt _ c hc) (by norm_num)
  simp only [importKey, exportKey]
  rw [decryptData_encryptData _ masterKey r hchars]
  simp only [base64ToArrayBuffer, arrayBufferToBase64]
  rw [base64Decode_encode _ (natToBytes_lt key), bytesToNat_natToBytes]

/-! ### `keyExchange.ts` -/

/-- From `keyExchange.ts`: `generateKeyPair()` — a fresh ECDH key pair on
the fixed `P-256` curve (`config.ecdhCurve`); the platform generator is
modelled as drawing a private scalar from the random source and forming
its public point. -/
def generateKeyPair (r : Rng) : KeyPair × Rng :=
  let dPair := generateRandomBytes 32 r
  let d := bytesToNat dPair.1
  (⟨ecPublicKey d, d⟩, dPair.2)

/-- From `keyExchange.ts`: `deriveSharedKey(privateKey, publicKey)` — ECDH
over the fixed curve, the shared point used as a 256-bit AES-GCM key
(`crypto.subtle.deriveKey({name:'ECDH', public}, privateKey, AES-GCM)`). -/
def deriveSharedKey (privateKey publicKey : Nat) : Nat :=
  ecdhSharedPoint privateKey publicKey

/-- From `keyExchange.ts`: `encryptForRecipient(data, senderPrivateKey,
senderPublicKey, recipientPublicKey)` — derive the pairwise key, encrypt,
tag with both fingerprints. -/
def encryptForRecipient (data : List Nat)
    (senderPrivateKey senderPublicKey recipientPublicKey : Nat) (r : Rng) :
    SharedSecret × Rng :=
  let sharedKey := deriveSharedKey senderPrivateKey recipientPublicKey
  let encPair := encryptData data sharedKey r
  let senderPublicKeyId := generateKeyFingerprint senderPublicKey
  let recipientPublicKeyId := generateKeyFingerprint recipientPublicKey
  (⟨encPair.1, recipientPublicKeyId, senderPublicKeyId⟩, encPair.2)

/-- From `keyExchange.ts`: `decryptFromSender(sharedSecret,
recipientPrivateKey, senderPublicKey)` — verify the declared sender
fingerprint first, then derive the pairwise key and decrypt. -/
def decryptFromSender (sharedSecret : SharedSecret)
    (recipientPrivateKey senderPublicKey : Nat) :
    Except CryptoError (List Nat) :=
  let expectedSenderKeyId := generateKeyFingerprint senderPublicKey
  if expectedSenderKeyId ≠ sharedSecret.senderPublicKeyId then
    .error .senderKeyMismatch
  else
    let sharedKey := deriveSharedKey recipientPrivateKey senderPublicKey
    decryptData sharedSecret.encryptedData sharedKey

/-- From `keyExchange.ts`: `createSecureSharingPayload(data, senderKeyPair,
recipientPublicKeys)` — one independent `encryptForRecipient` call per
recipient, in order. -/
def createSecureSharingPayload (data : List Nat) (senderKeyPair : KeyPair) :
    List Nat → Rng → List SharedSecret × Rng
  | [], r => ([], r)
  | recipientPublicKey :: rest, r =>
    let onePair := encryptForRecipient data senderKeyPair.privateKey
      senderKeyPair.publicKey recipientPublicKey r
    let restPair := createSecureSharingPayload data senderKeyPair rest
      onePair.2
    (onePair.1 :: restPair.1, restPair.2)

/-- From `keyExchange.ts`: `findAndDecryptSharedSecret(sharedSecrets,
recipientKeyPair, senderPublicKey)` — scan for the entry whose
`recipientPublicKeyId` matches the caller's fingerprint, then decrypt. -/
def findAndDecryptSharedSecret (sharedSecrets : List SharedSecret)
    (recipientKeyPair : KeyPair) (senderPublicKey : Nat) :
    Except CryptoError (List Nat) :=
  let recipientKeyId := generateKeyFingerprint recipientKeyPair.publicKey
  match sharedSecrets.find? (fun s => s.recipientPublicKeyId = recipientKeyId)
    with
  | none => .error .noSharedSecretFound
  | some targetSecret =>
    decryptFromSender targetSecret recipientKeyPair.privateKey
      senderPublicKey

/-! ### Vault data model (`types/vault.ts`)

The engine never inspects an entry's display fields (name, type, fields,
notes, favorite, tags, folderId) — they are one opaque serialisable datum
here.  Dates are timestamps (`Nat`); the `Date` revival on decrypt is the
identity on them. -/

/-- `VaultEntry` from `types/vault.ts` (display fields abstracted). -/
structure VaultEntry where
  id : Nat
  payload : Nat
  createdAt : Nat
  updatedAt : Nat
deriving DecidableEq

instance : Inhabited VaultEntry := ⟨⟨0, 0, 0, 0⟩⟩

/-- `VaultFolder` from `types/vault.ts` (display fields abstracted). -/
structure VaultFolder where
  id : Nat
  payload : Nat
  createdAt : Nat
  updatedAt : Nat
deriving DecidableEq

/-- `Vault` from `types/vault.ts`: the decrypted in-memory vault. -/
structure Vault where
  id : Nat
  name : List Nat
  description : Option (List Nat)
  entries : List VaultEntry
  folders : List VaultFolder
  ownerId : Nat
  organizationId : Option Nat
  createdAt : Nat
  updatedAt : Nat
  lastAccessedAt : Option Nat := none
  encryptedKey : EncryptedData
  keyFingerprint : List Nat
deriving DecidableEq

/-- `EncryptedVault` from `types/vault.ts`: the stored form.  The
`encryptedData` / `encryptedKey` strings hold envelopes whose JSON
serialisation is modelled as the identity. -/
structure EncryptedVault where
  id : Nat
  name : List Nat
  description : Option (List Nat)
  encryptedData : EncryptedData
  encryptedKey : EncryptedData
  keyFingerprint : List Nat
  ownerId : Nat
  organizationId : Option Nat
  createdAt : Nat
  updatedAt : Nat
  lastAccessedAt : Option Nat := none
deriving DecidableEq

/-- Serialised form of one entry (a record in the vault-payload JSON). -/
def encodeEntry (e : VaultEntry) : List Nat :=
  encodeVarint e.id ++ encodeVarint e.payload ++ encodeVarint e.createdAt ++
    encodeVarint e.updatedAt

/-- Serialised form of one folder (a record in the vault-payload JSON). -/
def encodeFolder (f : VaultFolder) : List Nat :=
  encodeVarint f.id ++ encodeVarint f.payload ++ encodeVarint f.createdAt ++
    encodeVarint f.updatedAt

/-- Models `JSON.stringify({entries, folders})`: the whole entry and folder
collection serialised into one string. -/
def serializeVaultData (entries : List VaultEntry)
    (folders : List VaultFolder) : List Nat :=
  encodeVarint entries.length ++ (entries.map encodeEntry).flatten ++
    encodeVarint folders.length ++ (folders.map encodeFolder).flatten

/-- Parse `count` serialised entries off the front of a string. -/
def decodeEntryList : Nat → List Nat → Option (List VaultEntry × List Nat)
  | 0, l => some ([], l)
  | count + 1, l => do
    let (i, l1) ← decodeVarint l
    let (p, l2) ← decodeVarint l1
    let (c, l3) ← decodeVarint l2
    let (u, l4) ← decodeVarint l3
    let (rest, l5) ← decodeEntryList count l4
    some (⟨i, p, c, u⟩ :: rest, l5)

/-- Parse `count` serialised folders off the front of a string. -/
def decodeFolderList : Nat → List Nat → Option (List VaultFolder × List Nat)
  | 0, l => some ([], l)
  | count + 1, l => do
    let (i, l1) ← decodeVarint l
    let (p, l2) ← decodeVarint l1
    let (c, l3) ← decodeVarint l2
    let (u, l4) ← decodeVarint l3
    let (rest, l5) ← decodeFolderList count l4
    some (⟨i, p, c, u⟩ :: rest, l5)

/-- Models `JSON.parse` of a serialised vault payload; `none` is the
platform `SyntaxError` on malformed input. -/
def deserializeVaultData (s : List Nat) :
    Option (List VaultEntry × List VaultFolder) := do
  let (numEntries, l1) ← decodeVarint s
  let (entries, l2) ← decodeEntryList numEntries l1
  let (numFolders, l3) ← decodeVarint l2
  let (folders, l4) ← decodeFolderList numFolders l3
  if l4.isEmpty then some (entries, folders) else none

/-! ### `vaultService.ts` -/

/-- From `vaultService.ts`: private `encryptVaultData(vault, vaultKey)` —
serialise the whole entry+folder collection and encrypt it in one piece
(the final `JSON.stringify` of the envelope is the identity). -/
def encryptVaultData (vault : Vault) (vaultKey : Nat) (r : Rng) :
    EncryptedData × Rng :=
  encryptData (serializeVaultData vault.entries vault.folders) vaultKey r

/-- From `vaultService.ts`: private `decryptVaultData(encryptedData,
vaultKey)` — decrypt, parse, revive dates (identity here). -/
def decryptVaultData (encryptedData : EncryptedData) (vaultKey : Nat) :
    Except CryptoError (List VaultEntry × List VaultFolder) :=
  match decryptData encryptedData vaultKey with
  | .error e => .error e
  | .ok decryptedJson =>
    match deserializeVaultData decryptedJson with
    | none => .error .invalidData
    | some data => .ok data

/-- From `vaultService.ts`: `decryptVault(encryptedVault, masterKey)` —
unwrap the vault key, recompute and check its fingerprint, and only then
decrypt the payload. -/
def decryptVault (encryptedVault : EncryptedVault) (masterKey : Nat) :
    Except CryptoError Vault :=
  match importKey encryptedVault.encryptedKey masterKey with
  | .error e => .error e
  | .ok vaultKey =>
    let keyFingerprint := generateKeyFingerprint vaultKey
    if keyFingerprint ≠ encryptedVault.keyFingerprint then
      .error .keyFingerprintMismatch
    else
      match decryptVaultData encryptedVault.encryptedData vaultKey with
      | .error e => .error e
      | .ok vaultData =>
        .ok { id := encryptedVault.id, name := encryptedVault.name,
              description := encryptedVault.description,
              entries := vaultData.1, folders := vaultData.2,
              ownerId := encryptedVault.ownerId,
              organizationId := encryptedVault.organizationId,
              createdAt := encryptedVault.createdAt,
              updatedAt := encryptedVault.updatedAt,
              lastAccessedAt := encryptedVault.lastAccessedAt,
              encryptedKey := encryptedVault.encryptedKey,
              keyFingerprint := encryptedVault.keyFingerprint }

/-- From `vaultService.ts`: `updateVault(vault, masterKey)`.  The source
mutates the caller's `vault` object (`vault.updatedAt = new Date()`); the
first component is that object's state after the call, the second the
returned `EncryptedVault` or the thrown error.  `now` is the clock value
the `new Date()` calls read. -/
def updateVault (vault : Vault) (masterKey : Nat) (now : Nat) (r : Rng) :
    Vault × Except CryptoError EncryptedVault × Rng :=
  match importKey vault.encryptedKey masterKey with
  | .error e => (vault, .error e, r)
  | .ok vaultKey =>
    let vault' := { vault with updatedAt := now }
    let encPair := encryptVaultData vault' vaultKey r
    (vault',
     .ok { id := vault'.id, name := vault'.name,
           description := vault'.description,
           encryptedData := encPair.1,
           encryptedKey := vault'.encryptedKey,
           keyFingerprint := vault'.keyFingerprint,
           ownerId := vault'.ownerId,
           organizationId := vault'.organizationId,
           createdAt := vault'.createdAt, updatedAt := vault'.updatedAt,
           lastAccessedAt := vault'.lastAccessedAt },
     encPair.2)

/-- From `vaultService.ts`: `addEntry(vault, entry, masterKey)` — pushes
the new entry onto the caller's `vault.entries` (in-place in the source),
then re-encrypts through `updateVault`.  The fresh id models
`crypto.randomUUID()`. -/
def addEntry (vault : Vault) (entry : Nat) (masterKey : Nat) (now : Nat)
    (r : Rng) : Vault × Except CryptoError EncryptedVault × Rng :=
  let idPair := generateRandomBytes 16 r
  let newEntry : VaultEntry :=
    { id := bytesToNat idPair.1, payload := entry,
      createdAt := now, updatedAt := now }
  let vault' := { vault with entries := vault.entries ++ [newEntry] }
  updateVault vault' masterKey now idPair.2

/-- From `vaultService.ts`: `updateEntry(vault, entryId, updates,
masterKey)` — replaces the found entry in the caller's `vault.entries`
with the merged record (the `...updates` spread is the function
`updates`), stamping `updatedAt`, then re-encrypts. -/
def updateEntry (vault : Vault) (entryId : Nat)
    (updates : VaultEntry → VaultEntry) (masterKey : Nat) (now : Nat)
    (r : Rng) : Vault × Except CryptoError EncryptedVault × Rng :=
  match vault.entries.findIdx? (fun e => e.id = entryId) with
  | none => (vault, .error .entryNotFound, r)
  | some entryIndex =>
    let merged := updates (vault.entries.getD entryIndex default)
    let newEntries := vault.entries.set entryIndex
      { merged with updatedAt := now }
    let vault' := { vault with entries := newEntries }
    updateVault vault' masterKey now r

/-- From `vaultService.ts`: `deleteEntry(vault, entryId, masterKey)` —
filters the entry out of the caller's `vault.entries`, then re-encrypts. -/
def deleteEntry (vault : Vault) (entryId : Nat) (masterKey : Nat)
    (now : Nat) (r : Rng) : Vault × Except CryptoError EncryptedVault × Rng :=
  let newEntries := vault.entries.filter (fun e => e.id ≠ entryId)
  let vault' := { vault with entries := newEntries }
  updateVault vault' masterKey now r

/-- From `vaultService.ts`: `addFolder(vault, folder, masterKey)` — pushes
the new folder onto the caller's `vault.folders`, then re-encrypts. -/
def addFolder (vault : Vault) (folder : Nat) (masterKey : Nat) (now : Nat)
    (r : Rng) : Vault × Except CryptoError EncryptedVault × Rng :=
  let idPair := generateRandomBytes 16 r
  let newFolder : VaultFolder :=
    { id := bytesToNat idPair.1, payload := folder,
      createdAt := now, updatedAt := now }
  let vault' := { vault with folders := vault.folders ++ [newFolder] }
  updateVault vault' masterKey now idPair.2

/-! ### Shared helper lemmas for the claims -/

theorem findIdx?_some_lt_length {α : Type} (p : α → Bool) :
    ∀ (l : List α) i, l.findIdx? p = some i → i < l.length := by
  intro l
  induction l with
  | nil => intro i h; simp at h
  | cons x xs ih =>
    intro i h
    rw [List.findIdx?_cons] at h
    by_cases hp : p x
    · simp [hp] at h
      subst h
      simp
    · simp [hp, Option.map_eq_some'] at h
      obtain ⟨j, hj, rfl⟩ := h
      have := ih j hj
      simp
      omega

theorem filter_length_lt_of_mem {α : Type} (l : List α) (p : α → Bool)
    (x : α) (hx : x ∈ l) (hpx : p x = false) :
    (l.filter p).length < l.length := by
  induction l with
  | nil => simp at hx
  | cons a t ih =>
    rcases List.mem_cons.1 hx with rfl | hxt
    · simp only [List.filter_cons, hpx]
      have := List.length_filter_le p t
      simp
      omega
    · by_cases hpa : p a
      · simp only [List.filter_cons, hpa]
        have := ih hxt
        simp
        omega
      · simp only [List.filter_cons, hpa]
        have := List.length_filter_le p t
        simp
        omega

/-! ## The claims -/

/-- C1: for every plaintext string `p` (a list of Unicode code points) and
every AES-GCM key `k`, decrypting the envelope produced by
`encryptData(p, k)` with the same key `k` returns exactly `p`, whatever
random-source state supplied the IV. -/
theorem C1_decrypt_encrypt_roundtrip (p : List Nat) (k : Nat) (r : Rng)
    (hp : ∀ c ∈ p, c < 0x110000) :
    decryptData (encryptData p k r).1 k = .ok p :=
  decryptData_encryptData p k r hp

/-- Witness for C1 at a concrete plaintext (with a three-byte UTF-8
character), key and random source. -/
theorem C1_decrypt_encrypt_roundtrip_witness :
    decryptData (encryptData [104, 105, 10000] 42 ⟨fun i => i * 7 + 3, 0⟩).1
      42 = .ok [104, 105, 10000] :=
  C1_decrypt_encrypt_roundtrip [104, 105, 10000] 42 ⟨fun i => i * 7 + 3, 0⟩
    (by decide)

/-- C5: ECDH key derivation is symmetric — for key pairs generated on the
fixed model curve, deriving from A's private key and B's public key gives
the same symmetric key handle as deriving from B's private key and A's
public key. -/
theorem C5_ecdh_symmetry (rA rB : Rng) :
    deriveSharedKey (generateKeyPair rA).1.privateKey
      (generateKeyPair rB).1.publicKey =
    deriveSharedKey (generateKeyPair rB).1.privateKey
      (generateKeyPair rA).1.publicKey := by
  simp only [generateKeyPair, deriveSharedKey]
  exact ecdhSharedPoint_comm _ _

/-- C10: `generateKeyFingerprint` is exactly the first 16 characters of
the base64 encoding of the SHA-256 digest of the exported key bytes, its
result always has length 16, and it is determined by the exported key
bytes alone. -/
theorem C10_generateKeyFingerprint_shape (k k1 k2 : Nat)
    (hexp : natToBytes k1 = natToBytes k2) :
    generateKeyFingerprint k =
      (arrayBufferToBase64 (sha256Digest (natToBytes k))).take 16 ∧
    (generateKeyFingerprint k).length = 16 ∧
    generateKeyFingerprint k1 = generateKeyFingerprint k2 := by
  refine ⟨rfl, ?_, ?_⟩
  · have hlen : (base64Encode (sha256Digest (natToBytes k))).length = 44 := by
      rw [base64Encode_length, sha256Digest_length]
    simp only [generateKeyFingerprint, arrayBufferToBase64, List.length_take,
      hlen]
    norm_num
  · simp only [generateKeyFingerprint, hexp]

/-- Witness for C10 at concrete keys. -/
theorem C10_generateKeyFingerprint_shape_witness :
    generateKeyFingerprint 3 =
      (arrayBufferToBase64 (sha256Digest (natToBytes 3))).take 16 ∧
    (generateKeyFingerprint 3).length = 16 ∧
    generateKeyFingerprint 5 = generateKeyFingerprint 5 :=
  C10_generateKeyFingerprint_shape 3 5 5 rfl

/-- C2 counterexample: a malformed envelope whose algorithm tag is not
`AES-GCM` does not fail with the generic `decryptionFailed` error — it
fails with a distinct, cause-revealing `unsupportedAlgorithm` error, so
the failure cause is distinguishable, contrary to the claim. -/
theorem C2_claim_counterexample :
    decryptData ⟨[], [], none, "RSA", none⟩ 0 =
      .error (.unsupportedAlgorithm "RSA") ∧
    CryptoError.unsupportedAlgorithm "RSA" ≠ CryptoError.decryptionFailed := by
  exact ⟨by decide, by decide⟩

/-- C2 (amended): for every envelope carrying the `AES-GCM` algorithm tag,
every authentication failure — wrong key, corrupted or tampered ciphertext
or IV — yields the one generic `decryptionFailed` error, which carries no
cause information; an envelope with any other algorithm tag is instead
rejected up front with a distinct `unsupportedAlgorithm` error. -/
theorem C2_generic_error_amended (env : EncryptedData) (key : Nat) :
    (env.algorithm = "AES-GCM" →
      aesGcmDecrypt key (base64ToArrayBuffer env.iv)
        (base64ToArrayBuffer env.data) = none →
      decryptData env key = .error .decryptionFailed) ∧
    (env.algorithm ≠ "AES-GCM" →
      decryptData env key = .error (.unsupportedAlgorithm env.algorithm)) := by
  constructor
  · intro halg hfail
    simp only [decryptData, halg, ne_eq, not_true_eq_false, ite_false,
      if_neg (by simp : ¬ ¬ ("AES-GCM" : String) = "AES-GCM")]
    rw [hfail]
  · intro halg
    simp only [decryptData, if_pos halg]

/-- Witness for the amended C2: a concrete honestly encrypted envelope
decrypted with a wrong key fails with exactly the generic error. -/
theorem C2_generic_error_amended_witness :
    decryptData (encryptData [104, 105] 6 ⟨fun i => i + 1, 0⟩).1 7 =
      .error .decryptionFailed :=
  (C2_generic_error_amended (encryptData [104, 105] 6 ⟨fun i => i + 1, 0⟩).1
    7).1 (by decide) (by decide)

/-- C4: `decryptFromSender` checks the expected sender's fingerprint
against the shared secret's declared sender id first — on mismatch it
fails with the sender-mismatch error whatever the recipient private key
and whatever the envelope (so no key derivation or decryption can have
touched them); on match it proceeds to derive the pairwise ECDH key and
decrypt with it. -/
theorem C4_decryptFromSender_sender_check (ss : SharedSecret)
    (priv pub : Nat) :
    (generateKeyFingerprint pub ≠ ss.senderPublicKeyId →
      ∀ (priv' : Nat) (d : EncryptedData),
        decryptFromSender { ss with encryptedData := d } priv' pub =
          .error .senderKeyMismatch) ∧
    (generateKeyFingerprint pub = ss.senderPublicKeyId →
      decryptFromSender ss priv pub =
        decryptData ss.encryptedData (deriveSharedKey priv pub)) := by
  constructor
  · intro hmm priv' d
    simp only [decryptFromSender, if_pos hmm]
  · intro hok
    simp only [decryptFromSender, hok, ne_eq, not_true_eq_false, ite_false]

/-- Witness for C4: a concrete shared secret whose declared sender id does
not match the expected sender is refused with the sender-mismatch error. -/
theorem C4_decryptFromSender_sender_check_witness :
    decryptFromSender
      ⟨⟨[], [], none, "AES-GCM", none⟩, [], [65]⟩ 9 3 =
      .error .senderKeyMismatch :=
  (C4_decryptFromSender_sender_check
    ⟨⟨[], [], none, "AES-GCM", none⟩, [], [65]⟩ 9 3).1 (by decide) 9
    ⟨[], [], none, "AES-GCM", none⟩

/-- C6: `deriveMasterKey` is deterministic — identical (password, salt)
inputs give bit-identical master keys, independently of the random-source
state; different salts for the same password give different keys; and when
the salt is omitted a fresh 32-byte salt is drawn from the random source
and returned (base64) with the key. -/
theorem C6_deriveMasterKey_determinism_and_salt (pw s s1 s2 : List Nat)
    (r1 r2 r : Rng) (h1 : ∀ b ∈ s1, b < 256) (h2 : ∀ b ∈ s2, b < 256)
    (hne : s1 ≠ s2) :
    ((deriveMasterKey pw (some s) r1).1 = (deriveMasterKey pw (some s) r2).1) ∧
    ((deriveMasterKey pw (some s1) r).1.key ≠
      (deriveMasterKey pw (some s2) r).1.key) ∧
    ((deriveMasterKey pw none r).1.salt =
      arrayBufferToBase64 (generateRandomBytes 32 r).1 ∧
     (generateRandomBytes 32 r).1.length = 32 ∧
     (deriveMasterKey pw none r).1.key =
      pbkdf2Sha256 (stringToArrayBuffer pw) (generateRandomBytes 32 r).1
        100000 256) := by
  refine ⟨?_, ?_, ?_, generateRandomBytes_length 32 r, ?_⟩
  · simp only [deriveMasterKey]
  · simp only [deriveMasterKey]
    exact pbkdf2Sha256_salt_ne _ s1 s2 _ _ h1 h2 hne
  · simp only [deriveMasterKey]
  · simp only [deriveMasterKey]

/-- Witness for C6 at concrete passwords, salts and random sources. -/
theorem C6_deriveMasterKey_determinism_and_salt_witness :
    ((deriveMasterKey [112] (some [1]) ⟨fun i => i, 5⟩).1 =
      (deriveMasterKey [112] (some [1]) ⟨fun i => i + 9, 2⟩).1) ∧
    ((deriveMasterKey [112] (some [0]) ⟨fun i => i, 0⟩).1.key ≠
      (deriveMasterKey [112] (some [1]) ⟨fun i => i, 0⟩).1.key) ∧
    ((deriveMasterKey [112] none ⟨fun i => i, 0⟩).1.salt =
      arrayBufferToBase64 (generateRandomBytes 32 ⟨fun i => i, 0⟩).1 ∧
     (generateRandomBytes 32 ⟨fun i => i, 0⟩).1.length = 32 ∧
     (deriveMasterKey [112] none ⟨fun i => i, 0⟩).1.key =
      pbkdf2Sha256 (stringToArrayBuffer [112])
        (generateRandomBytes 32 ⟨fun i => i, 0⟩).1 100000 256) :=
  C6_deriveMasterKey_determinism_and_salt [112] [1] [0] [1]
    ⟨fun i => i, 5⟩ ⟨fun i => i + 9, 2⟩ ⟨fun i => i, 0⟩
    (by decide) (by decide) (by decide)

/-- C7: `createSecureSharingPayload` returns one shared secret per
recipient — the result has exactly one entry per recipient public key, the
i-th entry's recipient fingerprint is that of the i-th recipient, its
sender fingerprint is the sender's, and each entry is its own independent
single-recipient `encryptForRecipient` envelope (no ciphertext is shared
between entries). -/
theorem C7_shareWithMany_per_recipient (data : List Nat) (kp : KeyPair)
    (ks : List Nat) (r : Rng) :
    (createSecureSharingPayload data kp ks r).1.length = ks.length ∧
    ∀ i, i < ks.length →
      ((createSecureSharingPayload data kp ks r).1.getD i
          default).recipientPublicKeyId =
        generateKeyFingerprint (ks.getD i 0) ∧
      ((createSecureSharingPayload data kp ks r).1.getD i
          default).senderPublicKeyId =
        generateKeyFingerprint kp.publicKey ∧
      ∃ ri : Rng, (createSecureSharingPayload data kp ks r).1.getD i default =
        (encryptForRecipient data kp.privateKey kp.publicKey
          (ks.getD i 0) ri).1 := by
  induction ks generalizing r with
  | nil =>
    refine ⟨rfl, ?_⟩
    intro i hi
    simp at hi
  | cons k rest ih =>
    constructor
    · simp only [createSecureSharingPayload, List.length_cons]
      rw [(ih _).1]
    · intro i hi
      cases i with
      | zero =>
        simp only [createSecureSharingPayload, List.getD_cons_zero]
        refine ⟨rfl, rfl, r, rfl⟩
      | succ j =>
        simp only [createSecureSharingPayload, List.getD_cons_succ]
        exact (ih _).2 j (by simpa using hi)

/-- Witness for C7 at a concrete payload with two recipients. -/
theorem C7_shareWithMany_per_recipient_witness :
    (createSecureSharingPayload [100] ⟨8, 2⟩ [4, 9] ⟨fun i => i, 0⟩).1.length
      = 2 ∧
    (((createSecureSharingPayload [100] ⟨8, 2⟩ [4, 9]
        ⟨fun i => i, 0⟩).1.getD 0 default).recipientPublicKeyId =
      generateKeyFingerprint 4 ∧
     ((createSecureSharingPayload [100] ⟨8, 2⟩ [4, 9]
        ⟨fun i => i, 0⟩).1.getD 0 default).senderPublicKeyId =
      generateKeyFingerprint 8 ∧
     ∃ ri : Rng, (createSecureSharingPayload [100] ⟨8, 2⟩ [4, 9]
        ⟨fun i => i, 0⟩).1.getD 0 default =
       (encryptForRecipient [100] 2 8 4 ri).1) := by
  have h := C7_shareWithMany_per_recipient [100] ⟨8, 2⟩ [4, 9] ⟨fun i => i, 0⟩
  exact ⟨h.1, h.2 0 (by norm_num)⟩

/-- C8: `generateSecurePassword` fails with the invalid-policy error
exactly when no character class is enabled (the pool is empty, whatever
`excludeSimilar` is); otherwise it returns a password of exactly
`options.length` characters, each drawn from the pool of enabled classes
(ambiguous glyphs removed per class when `excludeSimilar` is set, as baked
into `passwordCharset`). -/
theorem C8_generateSecurePassword_policy (o : PasswordGenerationOptions)
    (r : Rng) :
    (passwordCharset o = [] ↔
      o.includeUppercase = false ∧ o.includeLowercase = false ∧
      o.includeNumbers = false ∧ o.includeSymbols = false) ∧
    (passwordCharset o = [] →
      generateSecurePassword o r = (.error .invalidPolicy, r)) ∧
    (passwordCharset o ≠ [] →
      ∃ pw, (generateSecurePassword o r).1 = .ok pw ∧
        pw.length = o.length ∧ ∀ c ∈ pw, c ∈ passwordCharset o) := by
  refine ⟨?_, ?_, ?_⟩
  · obtain ⟨len, u, low, num, sym, ex⟩ := o
    cases u <;> cases low <;> cases num <;> cases sym <;> cases ex <;>
      simp [passwordCharset, uppercaseChars, uppercaseNoSimilar,
        lowercaseChars, lowercaseNoSimilar, numberChars, numberNoSimilar,
        symbolChars]
  · intro h
    simp only [generateSecurePassword]
    rw [if_pos h]
  · intro h
    refine ⟨(generateRandomBytes o.length r).1.map
      (fun b => (passwordCharset o).getD (b % (passwordCharset o).length) 0),
      ?_, ?_, ?_⟩
    · simp only [generateSecurePassword]
      rw [if_neg h]
    · rw [List.length_map, generateRandomBytes_length]
    · intro c hc
      obtain ⟨b, hb, rfl⟩ := List.mem_map.1 hc
      have hlen : 0 < (passwordCharset o).length := List.length_pos.2 h
      have hidx : b % (passwordCharset o).length < (passwordCharset o).length :=
        Nat.mod_lt _ hlen
      rw [List.getD_eq_getElem _ _ hidx]
      exact List.getElem_mem hidx

/-- Witness for C8: a policy with no class enabled is rejected, and a
four-character lowercase policy yields four characters from the lowercase
pool. -/
theorem C8_generateSecurePassword_policy_witness :
    (generateSecurePassword ⟨4, false, false, false, false, false⟩
      ⟨fun i => i, 0⟩ = (.error .invalidPolicy, ⟨fun i => i, 0⟩)) ∧
    (∃ pw, (generateSecurePassword ⟨4, false, true, false, false, false⟩
        ⟨fun i => i, 0⟩).1 = .ok pw ∧ pw.length = 4 ∧
      ∀ c ∈ pw, c ∈ passwordCharset ⟨4, false, true, false, false, false⟩) :=
  ⟨(C8_generateSecurePassword_policy ⟨4, false, false, false, false, false⟩
      ⟨fun i => i, 0⟩).2.1 (by decide),
   (C8_generateSecurePassword_policy ⟨4, false, true, false, false, false⟩
      ⟨fun i => i, 0⟩).2.2 (by decide)⟩

theorem updateVault_fst_entries (v : Vault) (mk now : Nat) (r : Rng) :
    (updateVault v mk now r).1.entries = v.entries := by
  cases h : importKey v.encryptedKey mk with
  | error e => simp [updateVault, h]
  | ok vk => simp [updateVault, h]

theorem updateVault_fst_folders (v : Vault) (mk now : Nat) (r : Rng) :
    (updateVault v mk now r).1.folders = v.folders := by
  cases h : importKey v.encryptedKey mk with
  | error e => simp [updateVault, h]
  | ok vk => simp [updateVault, h]

theorem updateVault_fst_of_ok (v : Vault) (mk now : Nat) (r : Rng)
    (h : (updateVault v mk now r).2.1.isOk = true) :
    (updateVault v mk now r).1 = { v with updatedAt := now } := by
  cases himp : importKey v.encryptedKey mk with
  | error e => simp [updateVault, himp, Except.isOk, Except.toBool] at h
  | ok vk => simp [updateVault, himp]

/-- C3: `decryptVault` recomputes the fingerprint of the unwrapped vault
key and compares it with the persisted one — on mismatch it fails with the
key-integrity error, and it does so whatever the encrypted payload is, so
the payload is never decrypted with the suspect key. -/
theorem C3_decryptVault_fingerprint_gate (ev : EncryptedVault) (mk vk : Nat)
    (hunwrap : importKey ev.encryptedKey mk = .ok vk)
    (hmismatch : generateKeyFingerprint vk ≠ ev.keyFingerprint) :
    decryptVault ev mk = .error .keyFingerprintMismatch ∧
    ∀ d : EncryptedData,
      decryptVault { ev with encryptedData := d } mk =
        .error .keyFingerprintMismatch := by
  have main : ∀ d : EncryptedData,
      decryptVault { ev with encryptedData := d } mk =
        .error .keyFingerprintMismatch := by
    intro d
    simp only [decryptVault, hunwrap]
    rw [if_pos hmismatch]
  exact ⟨main ev.encryptedData, main⟩

/-- Witness for C3: a concrete stored vault whose wrapped key unwraps
correctly but whose persisted fingerprint does not match is rejected. -/
theorem C3_decryptVault_fingerprint_gate_witness :
    decryptVault ⟨0, [], none, ⟨[], [], none, "AES-GCM", none⟩,
      (exportKey 5 7 ⟨fun i => 0, 0⟩).1, [], 0, none, 0, 0, none⟩ 7 =
      .error .keyFingerprintMismatch :=
  (C3_decryptVault_fingerprint_gate
    ⟨0, [], none, ⟨[], [], none, "AES-GCM", none⟩,
      (exportKey 5 7 ⟨fun i => 0, 0⟩).1, [], 0, none, 0, 0, none⟩ 7 5
    (by decide) (by decide)).1

/-- C9: the vault mutation operations are not pure in their `Vault`
argument — each one writes the caller's vault object: `addEntry` /
`addFolder` append to its entries/folders, `deleteEntry` replaces the
entry list by the filtered one, `updateEntry` overwrites the matched entry
(stamping its `updatedAt`), and `updateVault` overwrites `updatedAt`, so
after the call the object differs from what was passed in, besides the
returned `EncryptedVault`. -/
theorem C9_vault_mutations_in_place (v : Vault) (e f eid : Nat)
    (upd : VaultEntry → VaultEntry) (mk now : Nat) (r : Rng) :
    ((addEntry v e mk now r).1.entries.length = v.entries.length + 1 ∧
     (addEntry v e mk now r).1 ≠ v) ∧
    ((addFolder v f mk now r).1.folders.length = v.folders.length + 1 ∧
     (addFolder v f mk now r).1 ≠ v) ∧
    ((deleteEntry v eid mk now r).1.entries =
       v.entries.filter (fun x => x.id ≠ eid) ∧
     ((∃ x ∈ v.entries, x.id = eid) →
       (deleteEntry v eid mk now r).1 ≠ v)) ∧
    (∀ i, v.entries.findIdx? (fun x => x.id = eid) = some i →
      (updateEntry v eid upd mk now r).1.entries =
        v.entries.set i
          { upd (v.entries.getD i default) with updatedAt := now } ∧
      (now ≠ (v.entries.getD i default).updatedAt →
        (updateEntry v eid upd mk now r).1 ≠ v)) ∧
    ((updateVault v mk now r).2.1.isOk = true →
      (updateVault v mk now r).1 = { v with updatedAt := now } ∧
      (now ≠ v.updatedAt → (updateVault v mk now r).1 ≠ v)) := by
  have hAdd : (addEntry v e mk now r).1.entries =
      v.entries ++ [⟨bytesToNat (generateRandomBytes 16 r).1, e, now, now⟩] := by
    simp only [addEntry]
    rw [updateVault_fst_entries]
  have hFold : (addFolder v f mk now r).1.folders =
      v.folders ++ [⟨bytesToNat (generateRandomBytes 16 r).1, f, now, now⟩] := by
    simp only [addFolder]
    rw [updateVault_fst_folders]
  have hDel : (deleteEntry v eid mk now r).1.entries =
      v.entries.filter (fun x => x.id ≠ eid) := by
    simp only [deleteEntry]
    rw [updateVault_fst_entries]
  refine ⟨⟨?_, ?_⟩, ⟨?_, ?_⟩, ⟨hDel, ?_⟩, ?_, ?_⟩
  · rw [hAdd, List.length_append]
    rfl
  · intro hEq
    have hlen : (addEntry v e mk now r).1.entries.length =
        v.entries.length := by rw [hEq]
    rw [hAdd] at hlen
    simp at hlen
  · rw [hFold, List.length_append]
    rfl
  · intro hEq
    have hlen : (addFolder v f mk now r).1.folders.length =
        v.folders.length := by rw [hEq]
    rw [hFold] at hlen
    simp at hlen
  · intro hex hEq
    obtain ⟨x, hx, hxid⟩ := hex
    have hlt := filter_length_lt_of_mem v.entries
      (fun y => y.id ≠ eid) x hx (by simp [hxid])
    have hlen : (deleteEntry v eid mk now r).1.entries.length =
        v.entries.length := by rw [hEq]
    rw [hDel] at hlen
    omega
  · intro i hidx
    have hi := findIdx?_some_lt_length _ v.entries i hidx
    have hUE : (updateEntry v eid upd mk now r).1.entries =
        v.entries.set i
          { upd (v.entries.getD i default) with updatedAt := now } := by
      simp only [updateEntry, hidx]
      rw [updateVault_fst_entries]
    refine ⟨hUE, ?_⟩
    intro hne hEq
    have hEnt : v.entries.set i
        { upd (v.entries.getD i default) with updatedAt := now } =
        v.entries := by
      rw [← hUE]
      rw [hEq]
    have hset : (v.entries.set i
        { upd (v.entries.getD i default) with updatedAt := now }).getD i
          default =
        { upd (v.entries.getD i default) with updatedAt := now } := by
      rw [List.getD_eq_getElem _ _ (by simpa using hi)]
      exact List.getElem_set_self _
    rw [hEnt] at hset
    have hupd := congrArg VaultEntry.updatedAt hset
    exact hne hupd.symm
  · intro hOk
    refine ⟨updateVault_fst_of_ok v mk now r hOk, ?_⟩
    intro hne hEq
    rw [updateVault_fst_of_ok v mk now r hOk] at hEq
    have := congrArg Vault.updatedAt hEq
    simp at this
    exact hne this

/-- A concrete vault whose wrapped key unwraps under master key `7`:
vault key `5`, one entry with id `1`, timestamps `0`. -/
def sampleVault : Vault :=
  { id := 0, name := [], description := none,
    entries := [⟨1, 0, 0, 0⟩], folders := [],
    ownerId := 0, organizationId := none,
    createdAt := 0, updatedAt := 0, lastAccessedAt := none,
    encryptedKey := (exportKey 5 7 ⟨fun i => 0, 0⟩).1,
    keyFingerprint := generateKeyFingerprint 5 }

/-- Witness for C9: each mutation leaves the concrete caller vault object
different from what was passed in, and `updateVault` overwrites its
`updatedAt`. -/
theorem C9_vault_mutations_in_place_witness :
    (addEntry sampleVault 3 7 99 ⟨fun i => 0, 0⟩).1 ≠ sampleVault ∧
    (deleteEntry sampleVault 1 7 99 ⟨fun i => 0, 0⟩).1 ≠ sampleVault ∧
    (updateEntry sampleVault 1 (fun x => x) 7 99 ⟨fun i => 0, 0⟩).1 ≠
      sampleVault ∧
    (updateVault sampleVault 7 99 ⟨fun i => 0, 0⟩).1 =
      { sampleVault with updatedAt := 99 } := by
  have h := C9_vault_mutations_in_place sampleVault 3 3 1 (fun x => x) 7 99
    ⟨fun i => 0, 0⟩
  exact ⟨h.1.2,
    h.2.2.1.2 ⟨⟨1, 0, 0, 0⟩, by decide, rfl⟩,
    (h.2.2.2.1 0 (by decide)).2 (by decide),
    (h.2.2.2.2 (by decide)).1⟩
